import Mathlib

/-!
Shallow embedding of the Log Ingestion & Filtering Engine of logglance
(src/logfile.rs), together with theorems settling the specification
claims about it.

Modelling conventions:
* Machine integers (u64, usize) are modelled as Nat; none of the verified
  paths can overflow 64 bits, and the Rust code performs no wrapping
  arithmetic on them.
* A compiled regex (the external regex crate) is modelled abstractly as a
  function from a line to the list of its non-overlapping, leftmost match
  spans; is_match is "the span list is nonempty".  Byte offsets of spans
  are modelled as character offsets (no theorem depends on span contents).
* File contents are lists of byte values (Nat); the external encoding_rs
  decode step is a parameter, instantiated with an ASCII decoder at
  concrete inputs (all bytes used in concrete inputs are < 0x80, where the
  relevant encodings agree).
* Fallible Rust operations (Result) are modelled with Option, the error
  payload being dropped; channels are modelled as the list of messages
  sent over them, in order.
-/

namespace LogGlance

/-- MAX_FILE_SIZE constant from src/logfile.rs: 4 GiB. -/
def MAX_FILE_SIZE : Nat := (2 ^ 30) * 4

/-- MAX_ROWS constant from src/logfile.rs: 120 million. -/
def MAX_ROWS : Nat := (10 ^ 6) * 120

/-- Abstract compiled regex: a line is mapped to its non-overlapping
leftmost match spans, as produced by find_iter. -/
abbrev Matcher := String → List (Nat × Nat)

/-- Matcher.is_match: the regex crate's is_match, which holds exactly when
there is at least one match. -/
def Matcher.is_match (m : Matcher) (s : String) : Bool :=
  !(m s).isEmpty

/-- TextFormat: the two fields of egui's TextFormat that the program
writes (background and text color); colors are modelled as Nat codes. -/
structure TextFormat where
  background : Nat
  color : Nat
deriving DecidableEq

/-- TextFormat::default(). -/
def TextFormat.default : TextFormat := ⟨0, 0⟩

/-- Color32::RED, the hard-coded color of matched sub-spans. -/
def COLOR_RED : Nat := 16711680

/-- TextChunk struct from src/logfile.rs. -/
structure TextChunk where
  text : String
  format : Option TextFormat
deriving DecidableEq

/-- Line struct from src/logfile.rs. -/
structure Line where
  full : String
  chunks : Option (List TextChunk)
  default_format : TextFormat
deriving DecidableEq

/-- Line::new. -/
def Line.new (txt : String) (format : TextFormat) : Line :=
  ⟨txt, none, format⟩

/-- impl From of String for Line: Line::new with the default format. -/
def Line.ofString (s : String) : Line :=
  Line.new s TextFormat.default

/-- Search struct from src/logfile.rs.  The compiled regex is the abstract
Matcher; regex = none models a failed or never-attempted compilation. -/
structure Search where
  string : String
  is_regex : Bool
  case_insensitive : Bool
  regex : Option Matcher
  changed : Bool

/-- Search::is_empty. -/
def Search.is_empty (s : Search) : Bool :=
  s.string.isEmpty

/-- Search::ui, reduced to its data effect: the caller edits the three
textual/flag fields; if anything changed (or a nonempty pattern has no
compiled matcher yet) the pattern is recompiled.  compileResult is the
outcome of Search::create_regex: some matcher on success, none on a
compile error (in which case the code sets self.regex = None and shows an
error label, leaving string and the flags as edited). -/
def Search.uiStep (s : Search) (newString : String) (newIsRegex : Bool)
    (newCaseIns : Bool) (compileResult : Option Matcher) : Search :=
  let dataChanged := (newString != s.string) || (newIsRegex != s.is_regex)
    || (newCaseIns != s.case_insensitive)
  let s1 : Search := { s with string := newString, is_regex := newIsRegex,
                              case_insensitive := newCaseIns }
  let chg := (!s1.string.isEmpty && s1.regex.isNone) || dataChanged
  if chg then { s1 with regex := compileResult, changed := true }
  else { s1 with changed := false }

/-- Filter struct from src/logfile.rs (a Search, the apply flag, and the
changed flag). -/
structure Filter where
  search : Search
  filter : Bool
  changed : Bool

/-- Filter::filter (renamed filterLines; the Lean field and the method
cannot share the name).  Returns none when there is no compiled matcher;
otherwise the par_iter filter, whose collect preserves store order, so it
is the ordinary order-preserving filter. -/
def Filter.filterLines (f : Filter) (it : List String) : Option (List String) :=
  match f.search.regex with
  | some r => some (it.filter (fun l => r.is_match l))
  | none => none

/-- RowHighlight struct from src/logfile.rs. -/
structure RowHighlight where
  search : Search
  bg_color : Nat
  fg_color : Nat
  should_delete : Bool

/-- RowModifier struct from src/logfile.rs. -/
structure RowModifier where
  filter : Filter
  row_highlights : List RowHighlight

/-- String slice text[a..b], modelled at character granularity. -/
def strSlice (text : String) (a b : Nat) : String :=
  String.mk ((text.toList.drop a).take (b - a))

/-- String slice text[a..], modelled at character granularity. -/
def strSliceFrom (text : String) (a : Nat) : String :=
  String.mk (text.toList.drop a)

/-- The chunk-building loop of RowModifier::generate_line: walk the match
spans keeping last_end, pushing an unmatched gap chunk (guarded by
m.start() > 0 exactly as in the source), then the matched chunk with the
red format; after the loop the remainder text[last_end..] is pushed. -/
def buildChunksGo (text : String) : Nat → List (Nat × Nat) → List TextChunk
  | last_end, [] => [⟨strSliceFrom text last_end, none⟩]
  | last_end, (s, e) :: rest =>
    (if s > 0 then [TextChunk.mk (strSlice text last_end s) none] else []) ++
      TextChunk.mk (strSlice text s e)
        (some ⟨TextFormat.default.background, COLOR_RED⟩)
        :: buildChunksGo text e rest

/-- The row-highlight loop of RowModifier::generate_line: first rule that
is nonempty, has a compiled matcher and matches the line sets the whole
line's default_format and breaks. -/
def highlightPass : List RowHighlight → Line → String → Line
  | [], l, _ => l
  | h :: rest, l, text =>
    if h.search.is_empty then highlightPass rest l text
    else
      match h.search.regex with
      | some re =>
        if re.is_match text then
          { l with default_format := ⟨h.bg_color, h.fg_color⟩ }
        else highlightPass rest l text
      | none => highlightPass rest l text

/-- RowModifier::generate_line from src/logfile.rs. -/
def RowModifier.generate_line (rm : RowModifier) (text : String) : Line :=
  let l := highlightPass rm.row_highlights (Line.ofString text) text
  match rm.filter.search.regex with
  | some re => { l with chunks := some (buildChunksGo text 0 (re text)) }
  | none => l

/-- LogFileMessage enum from src/logfile.rs.  The Error payload and the
one-shot response channel inside ShowRestrictFileSizeDialog are dropped
(the response travels through the model as an explicit argument). -/
inductive LogFileMessage where
  | FileData (v : List String)
  | Error
  | ShowRestrictFileSizeDialog (size : Nat)
  | RestrictFileSize (response : Bool)
  | SetEncoding
deriving DecidableEq

/-- RestrictFileSize state enum from src/logfile.rs. -/
inductive RestrictFileSize where
  | Initializing
  | ShowRestrictFileSizeDialog (size : Nat)
  | RestrictedFileSize
  | UnrestrictedFileSize
deriving DecidableEq

/-- The consumer-side mutable state of LogFile that the claims are about
(the remaining LogFile fields are configuration or UI plumbing). -/
structure LogFileState where
  lines : List String
  errors : Nat
  restrict_filesize : RestrictFileSize
  recalculate_filter_cache : Bool
  filter_cache : Option (List String)
deriving DecidableEq

/-- The LogFileMessage::FileData arm of LogFile::ui: incrementally extend
an existing filter cache when a nonempty applied filter with a compiled
matcher is present, otherwise schedule a full recompute; then append the
batch to the line store. -/
def handleFileData (rm : RowModifier) (st : LogFileState) (v : List String) :
    LogFileState :=
  let st1 :=
    match st.filter_cache with
    | some cache =>
      if !rm.filter.search.is_empty && rm.filter.filter
          && rm.filter.search.regex.isSome then
        match rm.filter.filterLines v with
        | some filtered => { st with filter_cache := some (cache ++ filtered) }
        | none => { st with recalculate_filter_cache := true }
      else st
    | none => { st with recalculate_filter_cache := true }
  { st1 with lines := st1.lines ++ v }

/-- One received message in the drain loop of LogFile::ui. -/
def handleMessage (rm : RowModifier) (st : LogFileState) (msg : LogFileMessage) :
    LogFileState :=
  match msg with
  | .FileData v => handleFileData rm st v
  | .Error => { st with errors := st.errors + 1 }
  | .ShowRestrictFileSizeDialog size =>
    { st with restrict_filesize := .ShowRestrictFileSizeDialog size }
  | .RestrictFileSize response =>
    { st with restrict_filesize :=
        if response then .RestrictedFileSize else .UnrestrictedFileSize }
  | .SetEncoding => st

/-- The eviction while-loop of LogFile::ui in restricted mode, written
with the explicit fuel l.length (one front removal can happen per
iteration, so l.length iterations always suffice). -/
def evictFuel : Nat → List String → List String
  | 0, l => l
  | f + 1, l => if l.length > MAX_ROWS then evictFuel f l.tail else l

/-- while self.lines.len() > MAX_ROWS: self.lines.remove(0). -/
def evictLoop (l : List String) : List String :=
  evictFuel l.length l

/-- The restrict_filesize match of LogFile::ui: only the restricted state
mutates the store (the dialog state merely shows a window). -/
def applyRestrictStep (st : LogFileState) : LogFileState :=
  match st.restrict_filesize with
  | .RestrictedFileSize => { st with lines := evictLoop st.lines }
  | _ => st

/-- The recalculate_filter_cache block of LogFile::ui. -/
def recalcStep (rm : RowModifier) (st : LogFileState) : LogFileState :=
  if st.recalculate_filter_cache then
    { st with
      filter_cache :=
        if rm.filter.search.is_empty || !rm.filter.filter then none
        else rm.filter.filterLines st.lines,
      recalculate_filter_cache := false }
  else st

/-- One tick of LogFile::ui, in source order: drain the channel, apply the
restricted-mode eviction, recompute the filter cache if scheduled, and
schedule a recompute for the next tick when the filter spec changed during
this one. -/
def uiTick (rm : RowModifier) (msgs : List LogFileMessage) (st : LogFileState) :
    LogFileState :=
  let st1 := msgs.foldl (handleMessage rm) st
  let st2 := applyRestrictStep st1
  let st3 := recalcStep rm st2
  if rm.filter.changed then { st3 with recalculate_filter_cache := true }
  else st3

/-- The lines actually shown by LogFile::ui: the filter cache when one
exists, the full store otherwise. -/
def displayedLines (st : LogFileState) : List String :=
  match st.filter_cache with
  | some f => f
  | none => st.lines

/-- One read_until(b'\n') call on a byte stream: the consumed bytes (up to
and including the first newline, or everything when there is none) paired
with the remaining stream. -/
def splitAtNl : List Nat → List Nat × List Nat
  | [] => ([], [])
  | b :: rest =>
    if b == 10 then ([b], rest)
    else
      let p := splitAtNl rest
      (b :: p.1, p.2)

/-- The read loop of read_data_from_file splits the available bytes into
newline-terminated chunks (the last chunk possibly unterminated); written
with explicit fuel bs.length, which suffices because every iteration
consumes at least one byte. -/
def readLinesFuel : Nat → List Nat → List (List Nat)
  | 0, _ => []
  | fuel + 1, bs =>
    match bs with
    | [] => []
    | b :: rest =>
      let p := splitAtNl (b :: rest)
      p.1 :: readLinesFuel fuel p.2

/-- The chunks successively returned by read_until(b'\n') until a read of
zero bytes. -/
def readLines (bs : List Nat) : List (List Nat) :=
  readLinesFuel bs.length bs

/-- The body of read_data_from_file's loop over the decoded records: the
running line counter is incremented, then (in restricted mode, once the
counter exceeds MAX_ROWS) the oldest record is popped from the front, and
the new record is pushed at the back. -/
def read_data_loop (restrict : Bool) (decode : List Nat → String) :
    List (List Nat) → Nat → List String → List String
  | [], _, acc => acc
  | buf :: rest, lines, acc =>
    let output := decode buf
    let lines1 := lines + 1
    let acc1 := if restrict && lines1 > MAX_ROWS then acc.tail else acc
    read_data_loop restrict decode rest lines1 (acc1 ++ [output])

/-- read_data_from_file from src/logfile.rs, over the currently available
bytes bs of the stream. -/
def read_data_from_file (restrict : Bool) (decode : List Nat → String)
    (bs : List Nat) : List String :=
  read_data_loop restrict decode (readLines bs) 0 []

/-- The seek/skip part of init_reader from src/logfile.rs, as a function
from the whole file contents to the remaining stream handed to
read_data_from_file.  When restricted and the file exceeds MAX_FILE_SIZE,
the code seeks to SeekFrom::End(-(MAX_FILE_SIZE + 512)); that seek fails
with an I/O error (modelled none) when the file is shorter than
MAX_FILE_SIZE + 512, since the target position would be negative — the
source performs no clamping.  After a successful seek one read_until
discards everything up to and including the next newline. -/
def init_reader_model (bytes : List Nat) (restrict : Bool) :
    Option (List Nat) :=
  let size := bytes.length
  if restrict && size > MAX_FILE_SIZE then
    let seek_to := MAX_FILE_SIZE + 512
    if size < seek_to then none
    else some (splitAtNl (bytes.drop (size - seek_to))).2
  else some bytes

/-- The size-gate of the reader task (src/logfile.rs lines 869-883): above
MAX_FILE_SIZE a ShowRestrictFileSizeDialog request carrying the size is
sent and the task blocks on the one-shot channel until the caller's
boolean response arrives, which becomes the restriction decision;
otherwise RestrictFileSize(true) is sent and the decision is true.  The
result is (decision, messages sent). -/
def decideRestrict (size : Nat) (response : Bool) :
    Bool × List LogFileMessage :=
  if size > MAX_FILE_SIZE then
    (response, [LogFileMessage.ShowRestrictFileSizeDialog size])
  else
    (true, [LogFileMessage.RestrictFileSize true])

/-- ASCII instantiation of the external decode step: every byte becomes
the character with that code point.  Used only at concrete inputs whose
bytes are all < 0x80, where UTF-8 and the other detected single-byte
encodings agree. -/
def asciiDecode (bs : List Nat) : String :=
  String.mk (bs.map Char.ofNat)

/-- The initial-read pipeline of the reader task on a file with the given
contents: size-gate decision, init_reader seek/skip, then the first
read_data_from_file pass.  Returns the decision together with the records
of the initial pass, or none when init_reader fails. -/
def openAndReadInitial (bytes : List Nat) (response : Bool)
    (decode : List Nat → String) : Option (Bool × List String) :=
  let restrict := (decideRestrict bytes.length response).1
  match init_reader_model bytes restrict with
  | none => none
  | some stream => some (restrict, read_data_from_file restrict decode stream)

/-- Whether init_reader succeeds, given whether File::open succeeds and
the seek condition of init_reader_model: under a restricted decision on a
file larger than MAX_FILE_SIZE but shorter than MAX_FILE_SIZE + 512 the
tail seek fails. -/
def initOutcome (openOk : Bool) (restrict : Bool) (size : Nat) : Bool :=
  openOk && !(restrict && size > MAX_FILE_SIZE && size < MAX_FILE_SIZE + 512)

/-- A filesystem notification as seen by the reader's event loop, with the
outcome of the I/O it triggers carried in the event (the environment's
nondeterminism made explicit): create events trigger a re-init of the
reader which may fail; data-modification events trigger a read pass which
yields either a batch of records or an I/O error (none). -/
inductive FsEvent where
  | create (reinitOk : Bool)
  | modifyData (pass : Option (List String))
  | modifyMetaAny
  | otherEvent
  | nonMatchingPath
deriving DecidableEq

/-- The watch-event loop of the reader task (src/logfile.rs lines
929-972): events for other paths, metadata-Any events and other kinds are
ignored; a create event re-runs init_reader, whose failure propagates with
? and ends the task with no message; a data-modify event runs a read pass,
sending FileData on success (if nonempty) and an Error event on failure
and continuing either way.  Returns (messages sent, task completed
normally). -/
def processEvents : List FsEvent → List LogFileMessage × Bool
  | [] => ([], true)
  | e :: es =>
    match e with
    | .nonMatchingPath => processEvents es
    | .modifyMetaAny => processEvents es
    | .otherEvent => processEvents es
    | .create ok => if ok then processEvents es else ([], false)
    | .modifyData pass =>
      let tail := processEvents es
      match pass with
      | some data =>
        ((if data.isEmpty then tail.1 else LogFileMessage.FileData data :: tail.1),
         tail.2)
      | none => (LogFileMessage.Error :: tail.1, tail.2)

/-- The reader task from src/logfile.rs at message granularity: a failed
initial metadata stat sends an Error event and ends the task; then the
size gate runs; then init_reader runs, whose failure propagates with ? and
ends the task with no further message; then SetEncoding is sent, the
initial read pass runs (Error event on failure, the task continues), and
the event loop processes events.  Result: (messages sent, task completed
normally).  The filesystem-watch setup is modelled as succeeding (its
failure is a notify error, also propagated with ? and unreported, but
outside the I/O-error claims). -/
def readerModel (stat : Option Nat) (response : Bool) (openOk : Bool)
    (initPass : Option (List String)) (events : List FsEvent) :
    List LogFileMessage × Bool :=
  match stat with
  | none => ([LogFileMessage.Error], false)
  | some size =>
    let gate := decideRestrict size response
    if initOutcome openOk gate.1 size = false then (gate.2, false)
    else
      let initMsgs := gate.2 ++ [LogFileMessage.SetEncoding] ++
        (match initPass with
         | some d => if d.isEmpty then [] else [LogFileMessage.FileData d]
         | none => [LogFileMessage.Error])
      let tail := processEvents events
      (initMsgs ++ tail.1, tail.2)

/-- Encodings relevant to the model; the statistical detector may return
any of them. -/
inductive Enc where
  | utf8
  | utf16be
  | utf16le
  | windows1252
deriving DecidableEq

/-- Modelled external library: encoding_rs Encoding::for_bom, which
recognizes the UTF-8, UTF-16BE and UTF-16LE byte-order marks and returns
the encoding together with the BOM length. -/
def for_bom (bs : List Nat) : Option (Enc × Nat) :=
  match bs with
  | 0xEF :: 0xBB :: 0xBF :: _ => some (Enc.utf8, 3)
  | 0xFE :: 0xFF :: _ => some (Enc.utf16be, 2)
  | 0xFF :: 0xFE :: _ => some (Enc.utf16le, 2)
  | _ => none

/-- The encoding-resolution block of init_reader: a caller-supplied
encoding bypasses everything; otherwise BOM detection on the probe chunk
wins, and failing that the statistical detector's guess_assess result is
used, its confidence boolean ignored.  detectorGuess abstracts the
external chardetng detector: from the probe chunk to (best guess, is a
better encoding likely). -/
def resolveEncoding (override : Option Enc)
    (detectorGuess : List Nat → Enc × Bool) (probe : List Nat) : Enc :=
  match override with
  | some e => e
  | none =>
    match for_bom probe with
    | some (e, _) => e
    | none => (detectorGuess probe).1

/-- Message predicate: is this the error event? -/
def isErrorMsg : LogFileMessage → Bool
  | .Error => true
  | _ => false

/-- Number of error events in a message list. -/
def countErrors (msgs : List LogFileMessage) : Nat :=
  msgs.countP isErrorMsg

/-- Event predicate: a data-modification event whose read pass fails. -/
def isFailedPass : FsEvent → Bool
  | .modifyData none => true
  | _ => false

/-- Number of failing read passes among the events. -/
def failedPasses (events : List FsEvent) : Nat :=
  events.countP isFailedPass

/-! ### Helper lemmas -/

theorem MAX_ROWS_pos : 0 < MAX_ROWS := by norm_num [MAX_ROWS]

theorem evictFuel_of_le (f : Nat) (l : List String) (h : l.length ≤ MAX_ROWS) :
    evictFuel f l = l := by
  cases f with
  | zero => rfl
  | succ f =>
    rw [show evictFuel (f + 1) l
        = if l.length > MAX_ROWS then evictFuel f l.tail else l from rfl,
      if_neg (by omega)]

theorem evictFuel_drop (f : Nat) :
    ∀ l : List String, l.length ≤ MAX_ROWS + f →
      evictFuel f l = l.drop (l.length - MAX_ROWS) := by
  induction f with
  | zero =>
    intro l h
    have h0 : l.length - MAX_ROWS = 0 := by omega
    simp [evictFuel, h0]
  | succ f ih =>
    intro l h
    by_cases hl : l.length > MAX_ROWS
    · have htl : l.tail.length = l.length - 1 := List.length_tail l
      have hrec := ih l.tail (by omega)
      rw [show evictFuel (f + 1) l
          = if l.length > MAX_ROWS then evictFuel f l.tail else l from rfl,
        if_pos hl, hrec, List.drop_tail]
      have harg : l.tail.length - MAX_ROWS + 1 = l.length - MAX_ROWS := by omega
      rw [harg]
    · have h0 : l.length - MAX_ROWS = 0 := by omega
      rw [show evictFuel (f + 1) l
          = if l.length > MAX_ROWS then evictFuel f l.tail else l from rfl,
        if_neg hl, h0, List.drop_zero]

theorem evictLoop_of_le (l : List String) (h : l.length ≤ MAX_ROWS) :
    evictLoop l = l :=
  evictFuel_of_le l.length l h

theorem evictLoop_drop (l : List String) :
    evictLoop l = l.drop (l.length - MAX_ROWS) :=
  evictFuel_drop l.length l (by omega)

theorem evictLoop_length_le (l : List String) :
    (evictLoop l).length ≤ MAX_ROWS := by
  rw [evictLoop_drop, List.length_drop]
  omega

theorem evictLoop_suffix (l : List String) : evictLoop l <:+ l := by
  rw [evictLoop_drop]
  exact List.drop_suffix _ l

theorem splitAtNl_cons_nl (rest : List Nat) :
    splitAtNl (10 :: rest) = ([10], rest) := rfl

theorem splitAtNl_cons_other {b : Nat} (hb : b ≠ 10) (rest : List Nat) :
    splitAtNl (b :: rest) = (b :: (splitAtNl rest).1, (splitAtNl rest).2) := by
  rw [show splitAtNl (b :: rest)
      = if b == 10 then ([b], rest)
        else (b :: (splitAtNl rest).1, (splitAtNl rest).2) from rfl,
    if_neg (by simpa using hb)]

theorem splitAtNl_append (bs : List Nat) :
    (splitAtNl bs).1 ++ (splitAtNl bs).2 = bs := by
  induction bs with
  | nil => rfl
  | cons b rest ih =>
    by_cases hb : b = 10
    · subst hb; rw [splitAtNl_cons_nl]; simp
    · rw [splitAtNl_cons_other hb]
      simpa using ih

theorem splitAtNl_dropLast_no_nl (bs : List Nat) :
    ∀ b ∈ (splitAtNl bs).1.dropLast, b ≠ 10 := by
  induction bs with
  | nil => intro b hb; simp [splitAtNl] at hb
  | cons c rest ih =>
    intro b hb
    by_cases hc : c = 10
    · subst hc; rw [splitAtNl_cons_nl] at hb; simp at hb
    · rw [splitAtNl_cons_other hc] at hb
      rcases hp : (splitAtNl rest).1 with _ | ⟨d, ds⟩
      · rw [hp] at hb
        simp at hb
      · rw [hp, List.dropLast_cons₂] at hb
        rcases List.mem_cons.mp hb with rfl | hmem
        · exact hc
        · exact ih b (by rw [hp]; exact hmem)

theorem splitAtNl_last_or (bs : List Nat) :
    (splitAtNl bs).1.getLast? = some 10
      ∨ ((splitAtNl bs).2 = [] ∧ 10 ∉ (splitAtNl bs).1) := by
  induction bs with
  | nil => right; simp [splitAtNl]
  | cons c rest ih =>
    by_cases hc : c = 10
    · subst hc; left; rw [splitAtNl_cons_nl]; simp
    · rcases ih with hlast | ⟨hnil, hmem⟩
      · left
        rw [splitAtNl_cons_other hc]
        rcases hp : (splitAtNl rest).1 with _ | ⟨d, ds⟩
        · rw [hp] at hlast; simp at hlast
        · rw [hp] at hlast
          show (c :: d :: ds).getLast? = some 10
          rw [List.getLast?_cons_cons]
          exact hlast
      · right
        rw [splitAtNl_cons_other hc]
        refine ⟨hnil, ?_⟩
        intro hin
        rcases List.mem_cons.mp hin with h10 | hin2
        · exact hc h10.symm
        · exact hmem hin2

theorem handleFileData_lines (rm : RowModifier) (st : LogFileState)
    (v : List String) : (handleFileData rm st v).lines = st.lines ++ v := by
  unfold handleFileData
  rcases h : st.filter_cache with _ | cache
  · rfl
  · by_cases hc : (!rm.filter.search.is_empty && rm.filter.filter
        && rm.filter.search.regex.isSome) = true
    · rcases hf : rm.filter.filterLines v with _ | filtered <;> simp [hc, hf]
    · simp [hc]

theorem handleFileData_restrict (rm : RowModifier) (st : LogFileState)
    (v : List String) :
    (handleFileData rm st v).restrict_filesize = st.restrict_filesize := by
  unfold handleFileData
  rcases h : st.filter_cache with _ | cache
  · rfl
  · by_cases hc : (!rm.filter.search.is_empty && rm.filter.filter
        && rm.filter.search.regex.isSome) = true
    · rcases hf : rm.filter.filterLines v with _ | filtered <;> simp [hc, hf]
    · simp [hc]

theorem foldlFileData_lines (rm : RowModifier) (batches : List (List String)) :
    ∀ st : LogFileState,
      ((batches.map LogFileMessage.FileData).foldl (handleMessage rm) st).lines
        = st.lines ++ batches.flatten := by
  induction batches with
  | nil => intro st; simp
  | cons v vs ih =>
    intro st
    simp only [List.map_cons, List.foldl_cons, List.flatten_cons]
    rw [ih, show handleMessage rm st (LogFileMessage.FileData v)
      = handleFileData rm st v from rfl, handleFileData_lines, List.append_assoc]

theorem foldlFileData_restrict (rm : RowModifier) (batches : List (List String)) :
    ∀ st : LogFileState,
      ((batches.map LogFileMessage.FileData).foldl
          (handleMessage rm) st).restrict_filesize = st.restrict_filesize := by
  induction batches with
  | nil => intro st; rfl
  | cons v vs ih =>
    intro st
    simp only [List.map_cons, List.foldl_cons]
    rw [ih, show handleMessage rm st (LogFileMessage.FileData v)
      = handleFileData rm st v from rfl, handleFileData_restrict]

theorem recalcStep_lines (rm : RowModifier) (st : LogFileState) :
    (recalcStep rm st).lines = st.lines := by
  unfold recalcStep
  by_cases h : st.recalculate_filter_cache = true <;> simp [h]

theorem applyRestrictStep_of_restricted (st : LogFileState)
    (h : st.restrict_filesize = .RestrictedFileSize) :
    applyRestrictStep st = { st with lines := evictLoop st.lines } := by
  unfold applyRestrictStep
  rw [h]

theorem uiTick_lines (rm : RowModifier) (msgs : List LogFileMessage)
    (st : LogFileState) :
    (uiTick rm msgs st).lines
      = (applyRestrictStep (msgs.foldl (handleMessage rm) st)).lines := by
  unfold uiTick
  dsimp only
  by_cases hch : rm.filter.changed = true
  · rw [if_pos hch]
    exact recalcStep_lines rm _
  · rw [if_neg hch]
    exact recalcStep_lines rm _

theorem uiTick_lines_of_fileData (rm : RowModifier) (batches : List (List String))
    (st : LogFileState) (hr : st.restrict_filesize = .RestrictedFileSize) :
    (uiTick rm (batches.map LogFileMessage.FileData) st).lines
      = evictLoop (st.lines ++ batches.flatten) := by
  have h1 := foldlFileData_restrict rm batches st
  rw [hr] at h1
  rw [uiTick_lines, applyRestrictStep_of_restricted _ h1]
  simp [foldlFileData_lines]

theorem read_data_loop_length (decode : List Nat → String) :
    ∀ (chunks : List (List Nat)) (n : Nat) (acc : List String),
      acc.length ≤ n → acc.length ≤ MAX_ROWS →
      (read_data_loop true decode chunks n acc).length ≤ MAX_ROWS := by
  intro chunks
  induction chunks with
  | nil => intro n acc _ h2; exact h2
  | cons buf rest ih =>
    intro n acc h1 h2
    show (read_data_loop true decode rest (n + 1)
      ((if true && n + 1 > MAX_ROWS then acc.tail else acc)
        ++ [decode buf])).length ≤ MAX_ROWS
    have hpos := MAX_ROWS_pos
    by_cases hn : n + 1 > MAX_ROWS
    · have hif : (if true && n + 1 > MAX_ROWS then acc.tail else acc)
          = acc.tail := by simp [hn]
      rw [hif]
      have hlt : acc.tail.length = acc.length - 1 := List.length_tail acc
      refine ih (n + 1) _ ?_ ?_ <;>
        simp only [List.length_append, List.length_singleton, hlt] <;> omega
    · have hif : (if true && n + 1 > MAX_ROWS then acc.tail else acc)
          = acc := by simp [hn]
      rw [hif]
      refine ih (n + 1) _ ?_ ?_ <;>
        simp only [List.length_append, List.length_singleton] <;> omega

theorem read_data_from_file_length (decode : List Nat → String) (bs : List Nat) :
    (read_data_from_file true decode bs).length ≤ MAX_ROWS := by
  unfold read_data_from_file
  exact read_data_loop_length decode (readLines bs) 0 [] (by simp) (by simp)

theorem processEvents_no_gate (events : List FsEvent) :
    ∀ s, LogFileMessage.ShowRestrictFileSizeDialog s ∉ (processEvents events).1 := by
  induction events with
  | nil => intro s h; simp [processEvents] at h
  | cons e es ih =>
    intro s h
    rcases e with ok | pass | _ | _ | _
    · rcases ok <;> simp [processEvents] at h
      exact ih s h
    · rcases pass with _ | data
      · rcases List.mem_cons.mp h with h1 | h1
        · exact LogFileMessage.noConfusion h1
        · exact ih s h1
      · by_cases hd : data.isEmpty = true
        · simp only [processEvents, hd, if_pos] at h
          exact ih s h
        · simp only [processEvents, hd, if_neg] at h
          rcases List.mem_cons.mp h with h1 | h1
          · exact LogFileMessage.noConfusion h1
          · exact ih s h1
    · exact ih s h
    · exact ih s h
    · exact ih s h

theorem processEvents_reliable (events : List FsEvent)
    (h : ∀ e ∈ events, e ≠ FsEvent.create false) :
    (processEvents events).2 = true
      ∧ countErrors (processEvents events).1 = failedPasses events := by
  induction events with
  | nil => exact ⟨rfl, rfl⟩
  | cons e es ih =>
    have hes : ∀ e ∈ es, e ≠ FsEvent.create false :=
      fun x hx => h x (List.mem_cons_of_mem _ hx)
    have ihs := ih hes
    rcases e with ok | pass | _ | _ | _
    · rcases ok
      · exact absurd rfl (h _ (List.mem_cons_self _ _))
      · simpa [processEvents, countErrors, failedPasses] using ihs
    · rcases pass with _ | data
      · simp only [processEvents]
        refine ⟨ihs.1, ?_⟩
        simp only [countErrors, failedPasses, List.countP_cons] at ihs ⊢
        simp [isErrorMsg, isFailedPass, ihs.2]
      · by_cases hd : data.isEmpty = true
        · simp only [processEvents, hd, if_pos]
          refine ⟨ihs.1, ?_⟩
          simp only [countErrors, failedPasses, List.countP_cons] at ihs ⊢
          simp [isFailedPass, ihs.2]
        · simp only [processEvents, hd, if_neg]
          refine ⟨ihs.1, ?_⟩
          simp only [countErrors, failedPasses, List.countP_cons] at ihs ⊢
          simp [isErrorMsg, isFailedPass, ihs.2]
    · simpa [processEvents, countErrors, failedPasses, List.countP_cons,
        isFailedPass] using ihs
    · simpa [processEvents, countErrors, failedPasses, List.countP_cons,
        isFailedPass] using ihs
    · simpa [processEvents, countErrors, failedPasses, List.countP_cons,
        isFailedPass] using ihs

theorem readerModel_msgs_eq (size : Nat) (resp : Bool) (openOk : Bool)
    (initPass : Option (List String)) (events : List FsEvent) :
    ∃ rest, (readerModel (some size) resp openOk initPass events).1
        = (decideRestrict size resp).2 ++ rest
      ∧ (∀ s, LogFileMessage.ShowRestrictFileSizeDialog s ∉ rest) := by
  unfold readerModel
  dsimp only
  by_cases hio : initOutcome openOk (decideRestrict size resp).1 size = false
  · rw [if_pos hio]
    exact ⟨[], by simp, by simp⟩
  · rw [if_neg hio]
    refine ⟨[LogFileMessage.SetEncoding]
      ++ (match initPass with
          | some d => if d.isEmpty then [] else [LogFileMessage.FileData d]
          | none => [LogFileMessage.Error])
      ++ (processEvents events).1, by simp [List.append_assoc], ?_⟩
    intro s hs
    rcases List.mem_append.mp hs with hs1 | hs2
    · rcases List.mem_append.mp hs1 with hsa | hsb
      · simp at hsa
      · rcases initPass with _ | d
        · simp at hsb
        · by_cases hd : d.isEmpty = true
          · simp only [hd, if_pos] at hsb
            simp at hsb
          · simp only [hd, if_neg] at hsb
            simp at hsb
    · exact processEvents_no_gate events s hs2

theorem readerModel_gate_iff (size : Nat) (resp : Bool) (openOk : Bool)
    (initPass : Option (List String)) (events : List FsEvent) (s : Nat) :
    LogFileMessage.ShowRestrictFileSizeDialog s
        ∈ (readerModel (some size) resp openOk initPass events).1
      ↔ (MAX_FILE_SIZE < size ∧ s = size) := by
  obtain ⟨rest, heq, hno⟩ := readerModel_msgs_eq size resp openOk initPass events
  rw [heq]
  constructor
  · intro hm
    rcases List.mem_append.mp hm with h1 | h2
    · by_cases hsz : MAX_FILE_SIZE < size
      · simp [decideRestrict, hsz] at h1
        exact ⟨hsz, h1⟩
      · simp [decideRestrict, hsz] at h1
    · exact absurd h2 (hno s)
  · rintro ⟨hsz, rfl⟩
    apply List.mem_append_left
    simp [decideRestrict, hsz]

/-! ### Concrete fixtures used by witnesses and counterexamples -/

/-- A matcher that reports a match span on every line (the behavior of a
successfully compiled match-everything pattern on the concrete inputs
below). -/
def matchAll : Matcher := fun _ => [(0, 1)]

/-- Search::default(): empty pattern, flags off, no compiled regex. -/
def defaultSearch : Search := ⟨"", false, false, none, false⟩

/-- Filter::default(). -/
def defaultFilter : Filter := ⟨defaultSearch, false, false⟩

/-- RowModifier::default(), the row modifier of a freshly opened file. -/
def defaultRowModifier : RowModifier := ⟨defaultFilter, []⟩

/-- The consumer state right after create_receiver installed a channel:
empty store, no cache, recalculate_filter_cache = true. -/
def freshState : LogFileState :=
  ⟨[], 0, .Initializing, true, none⟩

/-! ### C8 — highlight precedence -/

/-- The claim's notion of a rule whose matcher matches a line, with the
code's extra nonempty-pattern guard: compare with the loop in
RowModifier::generate_line. -/
def ruleMatches (h : RowHighlight) (text : String) : Bool :=
  !h.search.is_empty
    && (match h.search.regex with
        | some re => re.is_match text
        | none => false)

theorem highlightPass_format (text : String) :
    ∀ (rules : List RowHighlight) (l : Line),
      (highlightPass rules l text).default_format
        = (match rules.find? (fun h => ruleMatches h text) with
           | some h => ⟨h.bg_color, h.fg_color⟩
           | none => l.default_format) := by
  intro rules
  induction rules with
  | nil => intro l; rfl
  | cons h rest ih =>
    intro l
    by_cases he : h.search.is_empty = true
    · have hrm : ruleMatches h text = false := by simp [ruleMatches, he]
      rw [show highlightPass (h :: rest) l text
          = if h.search.is_empty then highlightPass rest l text
            else match h.search.regex with
              | some re =>
                if re.is_match text then
                  { l with default_format := ⟨h.bg_color, h.fg_color⟩ }
                else highlightPass rest l text
              | none => highlightPass rest l text from rfl,
        if_pos he, List.find?_cons]
      rw [hrm]
      exact ih l
    · rw [show highlightPass (h :: rest) l text
          = if h.search.is_empty then highlightPass rest l text
            else match h.search.regex with
              | some re =>
                if re.is_match text then
                  { l with default_format := ⟨h.bg_color, h.fg_color⟩ }
                else highlightPass rest l text
              | none => highlightPass rest l text from rfl,
        if_neg he]
      rcases hre : h.search.regex with _ | re
      · dsimp only
        have hrm : ruleMatches h text = false := by simp [ruleMatches, hre]
        rw [List.find?_cons]
        rw [hrm]
        exact ih l
      · dsimp only
        by_cases hm : re.is_match text = true
        · have hrm : ruleMatches h text = true := by
            simp [ruleMatches, hre, he, hm]
          rw [if_pos hm, List.find?_cons]
          rw [hrm]
        · have hrm : ruleMatches h text = false := by
            simp [ruleMatches, hre, hm]
          rw [if_neg hm, List.find?_cons]
          rw [hrm]
          exact ih l

/-- C8 (amended): the whole-line style produced by
RowModifier::generate_line is that of the first rule with a nonempty
pattern whose compiled matcher matches the line; later matching rules
never override it, and when no rule matches the default style is kept.
(The original claim, without the nonempty-pattern qualification, is
refuted by highlight_precedence_counterexample.) -/
theorem highlight_precedence (rm : RowModifier) (text : String) :
    (rm.generate_line text).default_format
      = (match rm.row_highlights.find? (fun h => ruleMatches h text) with
         | some h => ⟨h.bg_color, h.fg_color⟩
         | none => TextFormat.default) := by
  unfold RowModifier.generate_line
  rcases hre : rm.filter.search.regex with _ | re
  · exact highlightPass_format text rm.row_highlights (Line.ofString text)
  · dsimp only
    exact highlightPass_format text rm.row_highlights (Line.ofString text)

/-- A highlight rule whose pattern text is empty but whose compiled
matcher matches every line (the state reached by clearing the pattern
field: the empty pattern compiles successfully to a match-everything
regex). -/
def emptyPatternRule : RowHighlight :=
  { search := ⟨"", false, false, some matchAll, false⟩,
    bg_color := 5, fg_color := 6, should_delete := false }

/-- Row modifier with the single empty-pattern rule and no filter. -/
def rmEmptyRule : RowModifier := ⟨defaultFilter, [emptyPatternRule]⟩

/-- C8 counterexample: the single rule's matcher matches the line "x",
so by the claim the line's style should be the rule's ⟨5, 6⟩; but
generate_line skips rules with an empty pattern text and leaves the
default style. -/
theorem highlight_precedence_counterexample :
    matchAll.is_match "x" = true
      ∧ (rmEmptyRule.generate_line "x").default_format = TextFormat.default
      ∧ TextFormat.default ≠ (⟨5, 6⟩ : TextFormat) := by
  refine ⟨rfl, by decide, by decide⟩

/-! ### C9 — encoding resolution -/

/-- C9: with no caller-supplied override the Encoding Resolver always
returns an encoding; when the probe chunk carries a recognized BOM the
BOM's encoding is returned and the statistical detector is never
consulted (the result is independent of it); otherwise the detector's
best guess is returned with its confidence boolean ignored. -/
theorem encoding_resolution (g : List Nat → Enc × Bool) (probe : List Nat) :
    (∃ e, resolveEncoding none g probe = e)
      ∧ (∀ e n, for_bom probe = some (e, n) →
          ∀ g2 : List Nat → Enc × Bool,
            resolveEncoding none g2 probe = e)
      ∧ (for_bom probe = none →
          resolveEncoding none g probe = (g probe).1) := by
  refine ⟨⟨resolveEncoding none g probe, rfl⟩, ?_, ?_⟩
  · intro e n hb g2
    unfold resolveEncoding
    rw [hb]
  · intro hb
    unfold resolveEncoding
    rw [hb]

/-- C9 witness: a UTF-8 BOM probe resolves to UTF-8 whatever the detector
would say, and a BOM-less ASCII probe resolves to the detector's guess
with the confidence flag ignored. -/
theorem encoding_resolution_witness :
    resolveEncoding none (fun _ => (Enc.windows1252, false)) [0xEF, 0xBB, 0xBF, 97]
        = Enc.utf8
      ∧ resolveEncoding none (fun _ => (Enc.windows1252, false)) [97, 98]
        = Enc.windows1252 := by
  constructor
  · exact (encoding_resolution (fun _ => (Enc.windows1252, false))
      [0xEF, 0xBB, 0xBF, 97]).2.1 Enc.utf8 3 (by decide) _
  · exact (encoding_resolution (fun _ => (Enc.windows1252, false))
      [97, 98]).2.2 (by decide)

/-! ### C4 — size-gate handshake -/

/-- C4: a ShowRestrictFileSizeDialog request is emitted by the reader task
if and only if the file size exceeds MAX_FILE_SIZE, every emitted request
carries exactly the file size, and above the threshold the restriction
decision used for reading is exactly the caller's response to the one-shot
channel (the engine never chooses it itself); the blocking rx.recv() is
modelled by the decision being the response value.  Below the threshold
the decision is the engine's own constant true. -/
theorem size_gate_handshake (size : Nat) (resp : Bool) (openOk : Bool)
    (initPass : Option (List String)) (events : List FsEvent) :
    ((∃ s, LogFileMessage.ShowRestrictFileSizeDialog s
        ∈ (readerModel (some size) resp openOk initPass events).1)
      ↔ MAX_FILE_SIZE < size)
    ∧ (∀ s, LogFileMessage.ShowRestrictFileSizeDialog s
        ∈ (readerModel (some size) resp openOk initPass events).1 → s = size)
    ∧ (MAX_FILE_SIZE < size → (decideRestrict size resp).1 = resp)
    ∧ (size ≤ MAX_FILE_SIZE → (decideRestrict size resp).1 = true) := by
  refine ⟨⟨?_, ?_⟩, ?_, ?_, ?_⟩
  · rintro ⟨s, hs⟩
    exact ((readerModel_gate_iff size resp openOk initPass events s).mp hs).1
  · intro hsz
    exact ⟨size,
      (readerModel_gate_iff size resp openOk initPass events size).mpr ⟨hsz, rfl⟩⟩
  · intro s hs
    exact ((readerModel_gate_iff size resp openOk initPass events s).mp hs).2
  · intro hsz
    simp [decideRestrict, hsz]
  · intro hsz
    simp [decideRestrict, Nat.not_lt.mpr hsz]

/-- C4 witness: a file one byte over the threshold emits the gate request
carrying its size, and a response of false becomes the decision; a file
below the threshold emits no request. -/
theorem size_gate_handshake_witness :
    (∃ s, LogFileMessage.ShowRestrictFileSizeDialog s
        ∈ (readerModel (some (MAX_FILE_SIZE + 1)) false true (some ["x"]) []).1)
      ∧ (decideRestrict (MAX_FILE_SIZE + 1) false).1 = false
      ∧ ¬ (∃ s, LogFileMessage.ShowRestrictFileSizeDialog s
          ∈ (readerModel (some 6) true true (some ["x"]) []).1) := by
  refine ⟨?_, ?_, ?_⟩
  · exact (size_gate_handshake (MAX_FILE_SIZE + 1) false true (some ["x"]) []).1.mpr
      (by omega)
  · exact (size_gate_handshake (MAX_FILE_SIZE + 1) false true (some ["x"]) []).2.2.1
      (by omega)
  · intro hex
    have := (size_gate_handshake 6 true true (some ["x"]) []).1.mp hex
    have h6 : (6 : Nat) ≤ MAX_FILE_SIZE := by norm_num [MAX_FILE_SIZE]
    omega

/-! ### C10 — small files are auto-restricted -/

/-- C10: for a file whose size is at most MAX_FILE_SIZE no gate request is
ever emitted and the engine itself sets the restriction decision to true
(sending RestrictFileSize(true) to the consumer, which moves the state to
RestrictedFileSize); consequently the MAX_ROWS cap and the front eviction
of LogFile::ui apply to every opened file, not only to oversized ones. -/
theorem small_file_auto_restricted (size : Nat) (resp : Bool) (openOk : Bool)
    (initPass : Option (List String)) (events : List FsEvent)
    (h : size ≤ MAX_FILE_SIZE) :
    (∀ s, LogFileMessage.ShowRestrictFileSizeDialog s
        ∉ (readerModel (some size) resp openOk initPass events).1)
    ∧ (decideRestrict size resp).1 = true
    ∧ LogFileMessage.RestrictFileSize true
        ∈ (readerModel (some size) resp openOk initPass events).1
    ∧ (∀ rm st, (handleMessage rm st
        (LogFileMessage.RestrictFileSize true)).restrict_filesize
          = RestrictFileSize.RestrictedFileSize)
    ∧ (∀ l, (evictLoop l).length ≤ MAX_ROWS ∧ evictLoop l <:+ l) := by
  have hnlt : ¬ MAX_FILE_SIZE < size := Nat.not_lt.mpr h
  refine ⟨?_, ?_, ?_, ?_, ?_⟩
  · intro s hs
    exact hnlt ((readerModel_gate_iff size resp openOk initPass events s).mp hs).1
  · simp [decideRestrict, hnlt]
  · obtain ⟨rest, heq, _⟩ := readerModel_msgs_eq size resp openOk initPass events
    rw [heq]
    apply List.mem_append_left
    simp [decideRestrict, hnlt]
  · intro rm st
    rfl
  · exact fun l => ⟨evictLoop_length_le l, evictLoop_suffix l⟩

/-- C10 witness: a 6-byte file gets the automatic restricted decision with
no gate request. -/
theorem small_file_auto_restricted_witness :
    (decideRestrict 6 true).1 = true
      ∧ LogFileMessage.RestrictFileSize true
          ∈ (readerModel (some 6) true true (some ["x"]) []).1 := by
  have h6 : (6 : Nat) ≤ MAX_FILE_SIZE := by norm_num [MAX_FILE_SIZE]
  exact ⟨(small_file_auto_restricted 6 true true (some ["x"]) [] h6).2.1,
    (small_file_auto_restricted 6 true true (some ["x"]) [] h6).2.2.1⟩

/-! ### C5 — bounded line store, FIFO eviction -/

/-- C5: in restricted mode, after any ui tick that appends any sequence of
line batches, the store is exactly the most recent MAX_ROWS lines of the
appended sequence (older lines dropped from the front, order preserved):
its length never exceeds MAX_ROWS and it is a suffix of the appended
store.  The reader-side deque of read_data_from_file obeys the same
MAX_ROWS bound within a pass via its pop_front policy. -/
theorem bounded_store_fifo (rm : RowModifier) (batches : List (List String))
    (st : LogFileState) (hr : st.restrict_filesize = .RestrictedFileSize) :
    ((uiTick rm (batches.map LogFileMessage.FileData) st).lines
        = (st.lines ++ batches.flatten).drop
            ((st.lines ++ batches.flatten).length - MAX_ROWS))
      ∧ (uiTick rm (batches.map LogFileMessage.FileData) st).lines.length
          ≤ MAX_ROWS
      ∧ (uiTick rm (batches.map LogFileMessage.FileData) st).lines
          <:+ (st.lines ++ batches.flatten)
      ∧ (∀ decode bs, (read_data_from_file true decode bs).length ≤ MAX_ROWS) := by
  have hl := uiTick_lines_of_fileData rm batches st hr
  refine ⟨?_, ?_, ?_, ?_⟩
  · rw [hl, evictLoop_drop]
  · rw [hl]; exact evictLoop_length_le _
  · rw [hl]; exact evictLoop_suffix _
  · exact fun decode bs => read_data_from_file_length decode bs

/-- A small consumer state already in restricted mode. -/
def stRestrictedSmall : LogFileState :=
  ⟨["a"], 0, .RestrictedFileSize, false, none⟩

/-- C5 witness: appending one batch to a small restricted store keeps all
lines (no eviction below the cap), in order. -/
theorem bounded_store_fifo_witness :
    stRestrictedSmall.restrict_filesize = RestrictFileSize.RestrictedFileSize
      ∧ (uiTick defaultRowModifier [LogFileMessage.FileData ["b"]]
          stRestrictedSmall).lines = ["a", "b"] := by
  refine ⟨rfl, ?_⟩
  have h := (bounded_store_fifo defaultRowModifier [["b"]] stRestrictedSmall rfl).1
  rw [show ((stRestrictedSmall.lines
      ++ ([["b"]] : List (List String)).flatten).drop
        ((stRestrictedSmall.lines
          ++ ([["b"]] : List (List String)).flatten).length - MAX_ROWS))
      = ["a", "b"] from by decide] at h
  exact h

/-! ### C2 — scenario A -/

/-- C2 counterexample: opening the 6-byte file "a\n b\n c\n" (no size
threshold triggered) emits records that retain their trailing newline —
read_until includes the delimiter and read_data_from_file never strips it
— so the emitted texts are "a\n", "b\n", "c\n", not "a", "b", "c" as the
claim states. -/
theorem scenario_a_counterexample :
    openAndReadInitial [97, 10, 98, 10, 99, 10] true asciiDecode
        = some (true, ["a\n", "b\n", "c\n"])
      ∧ (["a\n", "b\n", "c\n"] : List String) ≠ ["a", "b", "c"] :=
  ⟨by decide, by decide⟩

/-- C2 (amended): opening the 6-byte file "a\n b\n c\n" under no size
threshold emits exactly three records "a\n", "b\n", "c\n" — each retaining
its trailing newline — in file order, and after the consumer drains the
channel the line store holds exactly those three lines. -/
theorem scenario_a_amended (resp : Bool) :
    openAndReadInitial [97, 10, 98, 10, 99, 10] resp asciiDecode
        = some (true, ["a\n", "b\n", "c\n"])
      ∧ (uiTick defaultRowModifier
          [LogFileMessage.RestrictFileSize true, LogFileMessage.SetEncoding,
           LogFileMessage.FileData ["a\n", "b\n", "c\n"]] freshState).lines
        = ["a\n", "b\n", "c\n"]
      ∧ (["a\n", "b\n", "c\n"] : List String).length = 3 := by
  refine ⟨?_, by decide, by decide⟩
  cases resp
  · decide
  · decide

/-! ### C3 — restricted tail seek -/

/-- C3 counterexample: a 6-byte file read under a restricted decision (the
decision is restricted for every small file).  The claim predicts a start
offset of 0 (the clamp) and that the bytes from there up to and including
the first newline — the record "a\n" — are discarded and never emitted;
but the code only seeks and discards when the size exceeds MAX_FILE_SIZE,
so nothing is discarded and "a\n" is the first emitted record. -/
theorem tail_seek_counterexample :
    (decideRestrict 6 true).1 = true
      ∧ init_reader_model [97, 10, 98, 10, 99, 10] true
          = some [97, 10, 98, 10, 99, 10]
      ∧ read_data_from_file true asciiDecode [97, 10, 98, 10, 99, 10]
          = ["a\n", "b\n", "c\n"] :=
  ⟨by decide, by decide, by decide⟩

/-- C3 (amended): for a restricted read of a file of size at least
MAX_FILE_SIZE + 512 (the threshold plus the fixed 512-byte slack — below
MAX_FILE_SIZE no seek or discard happens at all, and strictly between the
two bounds the unclamped seek fails with an I/O error), the stream starts
at byte offset size − (MAX_FILE_SIZE + 512); the bytes from there up to
and including the next newline are discarded and never reach
read_data_from_file, the remaining stream begins just past that newline,
and when no newline exists the whole remainder is discarded and the pass
emits nothing. -/
theorem tail_seek_amended (bytes : List Nat)
    (h : MAX_FILE_SIZE + 512 ≤ bytes.length) :
    ∃ discarded rest,
      init_reader_model bytes true = some rest
      ∧ bytes = bytes.take (bytes.length - (MAX_FILE_SIZE + 512))
          ++ discarded ++ rest
      ∧ (∀ b ∈ discarded.dropLast, b ≠ 10)
      ∧ (discarded.getLast? = some 10 ∨ (rest = [] ∧ 10 ∉ discarded))
      ∧ (rest = [] → ∀ restrict decode,
          read_data_from_file restrict decode rest = []) := by
  refine ⟨(splitAtNl (bytes.drop (bytes.length - (MAX_FILE_SIZE + 512)))).1,
    (splitAtNl (bytes.drop (bytes.length - (MAX_FILE_SIZE + 512)))).2,
    ?_, ?_, splitAtNl_dropLast_no_nl _, splitAtNl_last_or _, ?_⟩
  · unfold init_reader_model
    dsimp only
    have hc : (true && decide (bytes.length > MAX_FILE_SIZE)) = true := by
      simp
      omega
    rw [if_pos hc, if_neg (by omega : ¬ bytes.length < MAX_FILE_SIZE + 512)]
  · calc bytes
        = bytes.take (bytes.length - (MAX_FILE_SIZE + 512))
          ++ bytes.drop (bytes.length - (MAX_FILE_SIZE + 512)) :=
          (List.take_append_drop _ _).symm
      _ = bytes.take (bytes.length - (MAX_FILE_SIZE + 512))
          ++ ((splitAtNl (bytes.drop (bytes.length - (MAX_FILE_SIZE + 512)))).1
            ++ (splitAtNl (bytes.drop (bytes.length - (MAX_FILE_SIZE + 512)))).2) := by
          rw [splitAtNl_append]
      _ = bytes.take (bytes.length - (MAX_FILE_SIZE + 512))
          ++ (splitAtNl (bytes.drop (bytes.length - (MAX_FILE_SIZE + 512)))).1
          ++ (splitAtNl (bytes.drop (bytes.length - (MAX_FILE_SIZE + 512)))).2 := by
          rw [List.append_assoc]
  · intro hrest restrict decode
    rw [hrest]
    rfl

/-- C3 witness: a file of exactly MAX_FILE_SIZE + 512 zero bytes satisfies
the size hypothesis and its restricted initial read succeeds. -/
theorem tail_seek_amended_witness :
    MAX_FILE_SIZE + 512 ≤ (List.replicate (MAX_FILE_SIZE + 512) (0 : Nat)).length
      ∧ ∃ rest, init_reader_model
          (List.replicate (MAX_FILE_SIZE + 512) (0 : Nat)) true = some rest := by
  refine ⟨by simp, ?_⟩
  obtain ⟨d, r, h1, -, -, -, -⟩ :=
    tail_seek_amended (List.replicate (MAX_FILE_SIZE + 512) (0 : Nat)) (by simp)
  exact ⟨r, h1⟩

/-! ### C6 — error propagation -/

/-- C6 counterexample: a file one byte over the threshold, gate answered
"restricted": init_reader's tail seek fails (unclamped negative seek
target), the ? operator propagates the failure out of the reader task, and
the task ends having sent only the gate request — an ingestion-side I/O
failure that is not an open failure, ends the task, and is never surfaced
as an error event. -/
theorem error_event_counterexample :
    readerModel (some (MAX_FILE_SIZE + 1)) true true (some ["x"]) []
        = ([LogFileMessage.ShowRestrictFileSizeDialog (MAX_FILE_SIZE + 1)], false)
      ∧ countErrors
          [LogFileMessage.ShowRestrictFileSizeDialog (MAX_FILE_SIZE + 1)] = 0 :=
  ⟨by decide, by decide⟩

/-- C6 (amended): every I/O error during an append pass is surfaced as an
error event and never terminates the task (with a working watch and
reader, the task runs to completion and emits exactly one error event per
failed pass, including a failed initial pass); a failure of the initial
metadata stat is reported before the task ends.  However — contrary to the
original claim — a failure inside init_reader (File::open or the tail
seek, after a successful stat) ends the task with no error event at all. -/
theorem error_event_policy (size : Nat) (resp : Bool)
    (initPass : Option (List String)) (events : List FsEvent)
    (hsz : size ≤ MAX_FILE_SIZE)
    (hcr : ∀ e ∈ events, e ≠ FsEvent.create false) :
    ((readerModel (some size) resp true initPass events).2 = true
      ∧ countErrors (readerModel (some size) resp true initPass events).1
          = (match initPass with | none => 1 | some _ => 0)
            + failedPasses events)
    ∧ (∀ (resp2 openOk2 : Bool) initPass2 events2,
        readerModel none resp2 openOk2 initPass2 events2
          = ([LogFileMessage.Error], false))
    ∧ readerModel (some size) resp false initPass events
        = ([LogFileMessage.RestrictFileSize true], false) := by
  have hnlt : ¬ MAX_FILE_SIZE < size := Nat.not_lt.mpr hsz
  have hgate : decideRestrict size resp
      = (true, [LogFileMessage.RestrictFileSize true]) := by
    simp [decideRestrict, hnlt]
  obtain ⟨hok, hcount⟩ := processEvents_reliable events hcr
  refine ⟨⟨?_, ?_⟩, ?_, ?_⟩
  · unfold readerModel
    dsimp only
    rw [hgate]
    rw [if_neg (by simp [initOutcome, hnlt])]
    exact hok
  · unfold readerModel
    dsimp only
    rw [hgate]
    rw [if_neg (by simp [initOutcome, hnlt])]
    dsimp only
    rcases initPass with _ | d
    · simp only [countErrors, List.countP_append] at hcount ⊢
      simp [isErrorMsg, hcount]
    · by_cases hd : d.isEmpty = true
      · simp only [hd, if_pos, countErrors, List.countP_append] at hcount ⊢
        simp [isErrorMsg, hcount]
      · simp only [hd, if_neg, countErrors, List.countP_append] at hcount ⊢
        simp [isErrorMsg, hcount]
  · intro resp2 openOk2 initPass2 events2
    rfl
  · unfold readerModel
    dsimp only
    rw [hgate]
    rw [if_pos (by simp [initOutcome])]

/-- C6 witness: a small file whose initial pass fails and whose event
sequence contains one failing and one succeeding append pass — the task
completes and exactly two error events are emitted. -/
theorem error_event_policy_witness :
    (readerModel (some 6) true true none
        [FsEvent.modifyData none, FsEvent.modifyData (some ["x\n"])]).2 = true
      ∧ countErrors (readerModel (some 6) true true none
          [FsEvent.modifyData none, FsEvent.modifyData (some ["x\n"])]).1 = 2 := by
  have h := (error_event_policy 6 true none
    [FsEvent.modifyData none, FsEvent.modifyData (some ["x\n"])]
    (by norm_num [MAX_FILE_SIZE])
    (by intro e he; fin_cases he <;> decide)).1
  refine ⟨h.1, ?_⟩
  rw [h.2]
  decide

/-! ### C7 — pattern compile failure -/

/-- A Search holding an invalid pattern whose compilation failed: matcher
absent, changed flag set. -/
def invalidSearch : Search := ⟨"[", true, false, none, true⟩

/-- Row modifier with the invalid applied filter. -/
def rmInvalid : RowModifier := ⟨⟨invalidSearch, true, true⟩, []⟩

/-- Consumer state holding a previously cached filtered view. -/
def stCached : LogFileState := ⟨["a", "b"], 0, .Initializing, false, some ["b"]⟩

/-- C7 counterexample: after the filter's pattern becomes invalid (matcher
absent, changed flag set), the tick that observes the change schedules a
recompute, and the next tick's recompute sets the filter cache to None —
the previously cached matches ["b"] do not remain untouched until a valid
pattern is supplied. -/
theorem compile_failure_counterexample :
    stCached.filter_cache = some ["b"]
      ∧ (uiTick rmInvalid [] (uiTick rmInvalid [] stCached)).filter_cache
          = none :=
  ⟨rfl, by decide⟩

/-- C7 (amended): a failed compilation leaves the matcher absent with the
edited pattern text and flags intact, never crashes the pipeline, and
renders that spec's matching inactive — the recompute clears the filter
cache to None (discarding, not preserving, the previously cached matches)
and the view falls back to the full unfiltered store. -/
theorem compile_failure_policy :
    (∀ (s : Search) (newStr : String) (nr nc : Bool),
        newStr ≠ s.string →
        (Search.uiStep s newStr nr nc none).regex = none
        ∧ (Search.uiStep s newStr nr nc none).string = newStr
        ∧ (Search.uiStep s newStr nr nc none).is_regex = nr
        ∧ (Search.uiStep s newStr nr nc none).case_insensitive = nc)
    ∧ (∀ (rm : RowModifier) (st : LogFileState),
        rm.filter.search.regex = none →
        rm.filter.search.is_empty = false →
        rm.filter.filter = true →
        st.recalculate_filter_cache = true →
        (recalcStep rm st).filter_cache = none
        ∧ displayedLines (recalcStep rm st) = (recalcStep rm st).lines) := by
  refine ⟨?_, ?_⟩
  · intro s newStr nr nc h
    have hch : (newStr != s.string) = true := bne_iff_ne.mpr h
    have hb : ((!newStr.isEmpty && (s.regex).isNone)
        || ((newStr != s.string) || (nr != s.is_regex)
          || (nc != s.case_insensitive))) = true := by
      rw [hch]
      simp
    unfold Search.uiStep
    dsimp only
    rw [if_pos hb]
    exact ⟨rfl, rfl, rfl, rfl⟩
  · intro rm st h1 h2 h3 h4
    have hcache : (recalcStep rm st).filter_cache = none := by
      unfold recalcStep
      rw [if_pos h4]
      dsimp only
      rw [h2, h3]
      simp [Filter.filterLines, h1]
    refine ⟨hcache, ?_⟩
    unfold displayedLines
    rw [hcache]

/-- A valid search for the pattern "a". -/
def searchA : Search := ⟨"a", false, false, some matchAll, false⟩

/-- C7 witness: editing the valid pattern "a" into the invalid "[" leaves
the matcher absent and the text as edited, and the subsequent recompute
clears the cached view. -/
theorem compile_failure_policy_witness :
    (Search.uiStep searchA "[" true false none).regex = none
      ∧ (Search.uiStep searchA "[" true false none).string = "["
      ∧ (recalcStep rmInvalid
          { stCached with recalculate_filter_cache := true }).filter_cache
        = none := by
  have h1 := compile_failure_policy.1 searchA "[" true false (by decide)
  have h2 := compile_failure_policy.2 rmInvalid
    { stCached with recalculate_filter_cache := true }
    rfl (by decide) rfl rfl
  exact ⟨h1.1, h1.2.1, h2.1⟩

/-! ### C1 — filter cache incremental equivalence -/

theorem uiTick_singleFileData (rm : RowModifier) (v : List String)
    (st : LogFileState) (hch : rm.filter.changed = false) :
    uiTick rm [LogFileMessage.FileData v] st
      = recalcStep rm (applyRestrictStep (handleFileData rm st v)) := by
  unfold uiTick
  dsimp only [List.foldl]
  rw [if_neg (by simp [hch])]
  rfl

theorem uiTick_fileData_inv (rm : RowModifier) (m : Matcher)
    (hre : rm.filter.search.regex = some m)
    (hf : rm.filter.filter = true)
    (hs : rm.filter.search.is_empty = false)
    (hch : rm.filter.changed = false)
    (st : LogFileState) (v : List String)
    (hnoev : st.restrict_filesize = .RestrictedFileSize →
      (st.lines ++ v).length ≤ MAX_ROWS)
    (hc : st.filter_cache = some (st.lines.filter (fun l => m.is_match l)))
    (hrec : st.recalculate_filter_cache = false) :
    uiTick rm [LogFileMessage.FileData v] st
      = { st with
          lines := (st.lines ++ v),
          filter_cache :=
            some ((st.lines ++ v).filter (fun l => m.is_match l)) } := by
  have h1 : handleFileData rm st v
      = { st with
          lines := (st.lines ++ v),
          filter_cache :=
            some ((st.lines ++ v).filter (fun l => m.is_match l)) } := by
    unfold handleFileData
    rw [hc]
    dsimp only
    have hcond : (!rm.filter.search.is_empty && rm.filter.filter
        && rm.filter.search.regex.isSome) = true := by
      rw [hs, hf, hre]
      rfl
    rw [if_pos hcond]
    have hfl : rm.filter.filterLines v
        = some (v.filter (fun l => m.is_match l)) := by
      unfold Filter.filterLines
      rw [hre]
    rw [hfl]
    dsimp only
    rw [List.filter_append]
  have h2 : applyRestrictStep (handleFileData rm st v) = handleFileData rm st v := by
    unfold applyRestrictStep
    rw [handleFileData_restrict]
    rcases hrs : st.restrict_filesize
    · rfl
    · rfl
    · have hlen : (st.lines ++ v).length ≤ MAX_ROWS := hnoev hrs
      have hlines := handleFileData_lines rm st v
      have hXr : (handleFileData rm st v).restrict_filesize
          = RestrictFileSize.RestrictedFileSize := by
        rw [handleFileData_restrict, hrs]
      rw [hlines, evictLoop_of_le _ hlen, ← hlines]
      dsimp only
      rw [← hXr]
    · rfl
  have h3 : (handleFileData rm st v).recalculate_filter_cache = false := by
    rw [h1, hrec]
  rw [uiTick_singleFileData rm v st hch, h2]
  unfold recalcStep
  rw [if_neg (by simp [h3])]
  exact h1

/-- C1 (amended): with a fixed applied filter (nonempty pattern, compiled
matcher, apply-flag on, spec unchanged), starting from any state whose
cache agrees with the filter of its store, any sequence of line-batch
arrivals processed by the incremental FileData path leaves the filter
cache equal to Filter::filter recomputed over the entire accumulated line
store — provided no restricted-mode eviction occurs, i.e. the store is
not in the restricted state, or the accumulated store never exceeds
MAX_ROWS (since lines only grow along the sequence, the final length
bound covers every intermediate tick).  In restricted mode, once the
store exceeds MAX_ROWS, eviction breaks this equivalence: see
filter_cache_claim_counterexample. -/
theorem filter_cache_incremental (rm : RowModifier) (m : Matcher)
    (hre : rm.filter.search.regex = some m)
    (hf : rm.filter.filter = true)
    (hs : rm.filter.search.is_empty = false)
    (hch : rm.filter.changed = false)
    (batches : List (List String)) :
    ∀ st : LogFileState,
      (st.restrict_filesize ≠ .RestrictedFileSize
        ∨ (st.lines ++ batches.flatten).length ≤ MAX_ROWS) →
      st.filter_cache = some (st.lines.filter (fun l => m.is_match l)) →
      st.recalculate_filter_cache = false →
      (batches.foldl
          (fun s v => uiTick rm [LogFileMessage.FileData v] s) st).filter_cache
        = rm.filter.filterLines
            (batches.foldl
              (fun s v => uiTick rm [LogFileMessage.FileData v] s) st).lines
      ∧ (batches.foldl
          (fun s v => uiTick rm [LogFileMessage.FileData v] s) st).lines
        = st.lines ++ batches.flatten := by
  induction batches with
  | nil =>
    intro st hr hc hrec
    dsimp only [List.foldl]
    refine ⟨?_, by simp⟩
    rw [hc]
    unfold Filter.filterLines
    rw [hre]
  | cons v vs ih =>
    intro st hr hc hrec
    dsimp only [List.foldl]
    have hnoev : st.restrict_filesize = .RestrictedFileSize →
        (st.lines ++ v).length ≤ MAX_ROWS := by
      intro hrs
      rcases hr with hl | hlen
      · exact absurd hrs hl
      · rw [List.flatten_cons] at hlen
        simp only [List.length_append] at hlen ⊢
        omega
    rw [uiTick_fileData_inv rm m hre hf hs hch st v hnoev hc hrec]
    have hr2 : ({ st with
          lines := (st.lines ++ v),
          filter_cache := some ((st.lines ++ v).filter (fun l => m.is_match l))
        } : LogFileState).restrict_filesize ≠ .RestrictedFileSize
        ∨ (({ st with
            lines := (st.lines ++ v),
            filter_cache := some ((st.lines ++ v).filter (fun l => m.is_match l))
          } : LogFileState).lines ++ vs.flatten).length ≤ MAX_ROWS := by
      rcases hr with hl | hlen
      · exact Or.inl hl
      · right
        rw [List.flatten_cons] at hlen
        dsimp only
        simp only [List.length_append] at hlen ⊢
        omega
    have hnext := ih
      { st with
        lines := (st.lines ++ v),
        filter_cache := some ((st.lines ++ v).filter (fun l => m.is_match l)) }
      hr2 rfl hrec
    refine ⟨hnext.1, ?_⟩
    rw [hnext.2]
    dsimp only
    rw [List.flatten_cons, List.append_assoc]

/-- A matcher matching exactly the lines "b" and "bb" (the literal search
"b" on the concrete store used in the witness). -/
def mB : Matcher := fun l => if l == "b" || l == "bb" then [(0, 1)] else []

/-- An applied filter for "b" with a compiled matcher. -/
def rmSearchB : RowModifier := ⟨⟨⟨"b", false, false, some mB, false⟩, true, false⟩, []⟩

/-- A consumer state whose cache agrees with the filter of its store. -/
def stB : LogFileState := ⟨["a", "b"], 0, .Initializing, false, some ["b"]⟩

/-- The same consumer state already in restricted mode (the engine's
default, C10), with the accumulated store far below MAX_ROWS. -/
def stBR : LogFileState :=
  ⟨["a", "b"], 0, .RestrictedFileSize, false, some ["b"]⟩

/-- C1 witness: two incremental batches over a concrete store keep the
cache equal to the full recompute — both in a non-restricted state and in
the restricted state while the store stays below MAX_ROWS. -/
theorem filter_cache_incremental_witness :
    stB.filter_cache = some (stB.lines.filter (fun l => mB.is_match l))
      ∧ ([["bb", "c"], ["b"]].foldl
          (fun s v => uiTick rmSearchB [LogFileMessage.FileData v] s)
            stB).filter_cache
        = rmSearchB.filter.filterLines
            ([["bb", "c"], ["b"]].foldl
              (fun s v => uiTick rmSearchB [LogFileMessage.FileData v] s)
                stB).lines
      ∧ ([["bb", "c"], ["b"]].foldl
          (fun s v => uiTick rmSearchB [LogFileMessage.FileData v] s)
            stB).lines
        = stB.lines ++ [["bb", "c"], ["b"]].flatten
      ∧ ([["bb", "c"], ["b"]].foldl
          (fun s v => uiTick rmSearchB [LogFileMessage.FileData v] s)
            stBR).filter_cache
        = rmSearchB.filter.filterLines
            ([["bb", "c"], ["b"]].foldl
              (fun s v => uiTick rmSearchB [LogFileMessage.FileData v] s)
                stBR).lines
      ∧ ([["bb", "c"], ["b"]].foldl
          (fun s v => uiTick rmSearchB [LogFileMessage.FileData v] s)
            stBR).lines
        = stBR.lines ++ [["bb", "c"], ["b"]].flatten := by
  have h := filter_cache_incremental rmSearchB mB rfl rfl (by decide) rfl
    [["bb", "c"], ["b"]] stB (Or.inl (by decide)) (by decide) rfl
  have h2 := filter_cache_incremental rmSearchB mB rfl rfl (by decide) rfl
    [["bb", "c"], ["b"]] stBR (Or.inr (by decide)) (by decide) rfl
  exact ⟨by decide, h.1, h.2, h2.1, h2.2⟩

/-- The applied filter used in the counterexample: literal search "b" over
a store of "b" lines, whose compiled matcher matches every such line. -/
def rmBig : RowModifier :=
  ⟨⟨⟨"b", false, false, some matchAll, false⟩, true, false⟩, []⟩

/-- C1 counterexample: in restricted mode (the engine's default for every
file, see C10), a first tick that fills the store to exactly MAX_ROWS
lines and a second incremental tick that appends one more line make the
eviction loop drop the oldest store line while the incrementally extended
cache keeps its match — the cache (MAX_ROWS + 1 entries) no longer equals
Filter::filter recomputed over the accumulated store (MAX_ROWS entries),
refuting the claim for unrestrictedly long arrival sequences. -/
theorem filter_cache_claim_counterexample :
    (uiTick rmBig [LogFileMessage.FileData ["b"]]
        (uiTick rmBig
          [LogFileMessage.RestrictFileSize true,
           LogFileMessage.FileData (List.replicate MAX_ROWS "b")]
          freshState)).filter_cache
      ≠ rmBig.filter.filterLines
          (uiTick rmBig [LogFileMessage.FileData ["b"]]
            (uiTick rmBig
              [LogFileMessage.RestrictFileSize true,
               LogFileMessage.FileData (List.replicate MAX_ROWS "b")]
              freshState)).lines := by
  have hfilterAll : ∀ L : List String,
      List.filter (fun l => matchAll.is_match l) L = L :=
    fun L => List.filter_eq_self.mpr (fun a _ => rfl)
  have hev1 : evictLoop (List.replicate MAX_ROWS "b")
      = List.replicate MAX_ROWS "b" :=
    evictFuel_of_le _ _ (by simp)
  have hst1 : uiTick rmBig
      [LogFileMessage.RestrictFileSize true,
       LogFileMessage.FileData (List.replicate MAX_ROWS "b")] freshState
      = ⟨List.replicate MAX_ROWS "b", 0, .RestrictedFileSize, false,
          some (List.replicate MAX_ROWS "b")⟩ := by
    unfold uiTick
    dsimp only
    rw [if_neg (by decide : ¬ rmBig.filter.changed = true)]
    rw [show List.foldl (handleMessage rmBig) freshState
        [LogFileMessage.RestrictFileSize true,
         LogFileMessage.FileData (List.replicate MAX_ROWS "b")]
        = ⟨List.replicate MAX_ROWS "b", 0, .RestrictedFileSize, true, none⟩
        from rfl]
    rw [show applyRestrictStep
        ⟨List.replicate MAX_ROWS "b", 0, .RestrictedFileSize, true, none⟩
        = ⟨evictLoop (List.replicate MAX_ROWS "b"), 0, .RestrictedFileSize,
            true, none⟩ from rfl]
    rw [hev1]
    unfold recalcStep
    rw [if_pos rfl]
    dsimp only
    rw [if_neg (by decide :
      ¬ (rmBig.filter.search.is_empty || !rmBig.filter.filter) = true)]
    unfold Filter.filterLines
    rw [show rmBig.filter.search.regex = some matchAll from rfl]
    dsimp only
    rw [hfilterAll]
  have hst2 : uiTick rmBig [LogFileMessage.FileData ["b"]]
      ⟨List.replicate MAX_ROWS "b", 0, .RestrictedFileSize, false,
        some (List.replicate MAX_ROWS "b")⟩
      = ⟨evictLoop (List.replicate MAX_ROWS "b" ++ ["b"]), 0,
          .RestrictedFileSize, false,
          some (List.replicate MAX_ROWS "b" ++ ["b"])⟩ := rfl
  rw [hst1, hst2]
  dsimp only
  unfold Filter.filterLines
  rw [show rmBig.filter.search.regex = some matchAll from rfl]
  dsimp only
  rw [hfilterAll]
  intro heq
  have hinj := Option.some.inj heq
  have hlen := congrArg List.length hinj
  rw [List.length_append, List.length_replicate, List.length_singleton] at hlen
  have hb := evictLoop_length_le (List.replicate MAX_ROWS "b" ++ ["b"])
  omega

end LogGlance
